import Mathlib

/-!
Verification development for the DocuExtract AI Markdown export engine.

The engine (TypeScript) walks a Markdown string line by line and renders it
either to a paginated PDF-like sink or to a flow-document Word-like sink.
Strings are modelled as lists of characters; the module-level global regex
`/\[(.*?)\]\((.*?)\)/g` is modelled by an explicit lazy scanner, and its
shared mutable `lastIndex` is threaded as explicit state where relevant.
-/

/-- Strings are modelled as lists of characters. -/
abbrev Str := List Char

/-- JavaScript `String.prototype.trim`: drop whitespace at both ends. -/
def trim (l : Str) : Str :=
  ((l.dropWhile Char.isWhitespace).reverse.dropWhile Char.isWhitespace).reverse

/-- JavaScript `String.prototype.includes` for a literal pattern. -/
def hasSub (pat : Str) : Str → Bool
  | [] => pat.isEmpty
  | c :: rest => pat.isPrefixOf (c :: rest) || hasSub pat rest

/-- Fueled worker for `replaceAll`; the fuel bounds the number of scanning
steps, and `replaceAll` always supplies enough.  Models a global literal
`String.prototype.replace(/pat/g, repl)`: left-to-right, non-overlapping. -/
def replaceAllFuel (pat repl : Str) : Nat → Str → Str
  | _, [] => []
  | 0, l => l
  | fuel + 1, c :: rest =>
    if pat.isPrefixOf (c :: rest) ∧ pat ≠ [] then
      repl ++ replaceAllFuel pat repl fuel ((c :: rest).drop pat.length)
    else
      c :: replaceAllFuel pat repl fuel rest

/-- JavaScript global replace of a literal pattern (all patterns used by the
source are nonempty). -/
def replaceAll (pat repl l : Str) : Str := replaceAllFuel pat repl l.length l

/-- JavaScript `String.prototype.replace` with a plain string pattern:
replaces only the first occurrence. -/
def replaceFirst (pat repl : Str) : Str → Str
  | [] => []
  | c :: rest =>
    if pat.isPrefixOf (c :: rest) ∧ pat ≠ [] then
      repl ++ (c :: rest).drop pat.length
    else
      c :: replaceFirst pat repl rest

/-! The link regex `/\[(.*?)\]\((.*?)\)/g` (source line 7) is modelled by an
explicit scanner with JavaScript lazy-quantifier semantics: `.` never matches
a newline, the label and the url are the shortest alternatives that allow the
whole pattern to match, and matching backtracks by extending the label. -/

/-- Scan the characters after `(`: the lazy url stops at the first `)`;
`.` does not match a newline, so a newline kills the attempt. -/
def scanUrl : Str → Option (Str × Str)
  | [] => none
  | c :: rest =>
    if c = ')' then some ([], rest)
    else if c = '\n' then none
    else
      match scanUrl rest with
      | some (u, rem) => some (c :: u, rem)
      | none => none

/-- Attempt to close a match right after the label: requires `(` and then a
url closed by `)`. -/
def tryClose : Str → Option (Str × Str)
  | '(' :: rest2 => scanUrl rest2
  | _ => none

/-- Scan the characters after `[`: at each position, first try to close the
label (lazy), otherwise absorb the character into the label (backtracking). -/
def scanLabel : Str → Option (Str × Str × Str)
  | [] => none
  | c :: rest =>
    match (if c = ']' then tryClose rest else none) with
    | some (u, rem) => some ([], u, rem)
    | none =>
      if c = '\n' then none
      else
        match scanLabel rest with
        | some (lab, u, rem) => some (c :: lab, u, rem)
        | none => none

/-- Leftmost match of the link regex: returns the text before the match, the
label, the url, and the text after the match. -/
def findMatch : Str → Option (Str × Str × Str × Str)
  | [] => none
  | c :: rest =>
    match (if c = '[' then scanLabel rest else none) with
    | some (lab, u, rem) => some ([], lab, u, rem)
    | none =>
      match findMatch rest with
      | some (pre, lab, u, rem) => some (c :: pre, lab, u, rem)
      | none => none

theorem scanUrl_eq {l u rem : Str} (h : scanUrl l = some (u, rem)) :
    l = u ++ ')' :: rem := by
  induction l generalizing u rem with
  | nil => simp [scanUrl] at h
  | cons c rest ih =>
    unfold scanUrl at h
    split at h
    · rename_i hc
      simp only [Option.some.injEq, Prod.mk.injEq] at h
      obtain ⟨h1, h2⟩ := h
      subst h1 h2 hc
      simp
    · split at h
      · exact absurd h (by simp)
      · split at h
        · rename_i u0 rem0 heq
          simp only [Option.some.injEq, Prod.mk.injEq] at h
          obtain ⟨h1, h2⟩ := h
          subst h1 h2
          simpa using ih heq
        · exact absurd h (by simp)

theorem tryClose_eq {l u rem : Str} (h : tryClose l = some (u, rem)) :
    l = '(' :: (u ++ ')' :: rem) := by
  unfold tryClose at h
  split at h
  · rename_i rest2
    simpa using scanUrl_eq h
  · exact absurd h (by simp)

theorem scanLabel_eq {l lab u rem : Str} (h : scanLabel l = some (lab, u, rem)) :
    l = lab ++ ']' :: '(' :: (u ++ ')' :: rem) := by
  induction l generalizing lab u rem with
  | nil => simp [scanLabel] at h
  | cons c rest ih =>
    unfold scanLabel at h
    split at h
    · rename_i u0 rem0 heq
      have hc : c = ']' ∧ tryClose rest = some (u0, rem0) := by
        by_cases hcc : c = ']'
        · simpa [hcc] using heq
        · simp [hcc] at heq
      simp only [Option.some.injEq, Prod.mk.injEq] at h
      obtain ⟨h1, h2, h3⟩ := h
      subst h1 h2 h3
      rw [hc.1, tryClose_eq hc.2]
      simp
    · split at h
      · exact absurd h (by simp)
      · split at h
        · rename_i lab0 u0 rem0 heq
          simp only [Option.some.injEq, Prod.mk.injEq] at h
          obtain ⟨h1, h2, h3⟩ := h
          subst h1 h2 h3
          simpa using ih heq
        · exact absurd h (by simp)

theorem findMatch_eq {l pre lab url rem : Str}
    (h : findMatch l = some (pre, lab, url, rem)) :
    l = pre ++ '[' :: (lab ++ ']' :: '(' :: (url ++ ')' :: rem)) := by
  induction l generalizing pre lab url rem with
  | nil => simp [findMatch] at h
  | cons c rest ih =>
    unfold findMatch at h
    split at h
    · rename_i lab0 u0 rem0 heq
      have hc : c = '[' ∧ scanLabel rest = some (lab0, u0, rem0) := by
        by_cases hcc : c = '['
        · simpa [hcc] using heq
        · simp [hcc] at heq
      simp only [Option.some.injEq, Prod.mk.injEq] at h
      obtain ⟨h1, h2, h3, h4⟩ := h
      subst h1 h2 h3 h4
      rw [hc.1, scanLabel_eq hc.2]
      simp
    · split at h
      · rename_i pre0 lab0 u0 rem0 heq
        simp only [Option.some.injEq, Prod.mk.injEq] at h
        obtain ⟨h1, h2, h3, h4⟩ := h
        subst h1 h2 h3 h4
        simpa using ih heq
      · exact absurd h (by simp)

theorem findMatch_rem_lt {l pre lab url rem : Str}
    (h : findMatch l = some (pre, lab, url, rem)) :
    rem.length < l.length := by
  have := findMatch_eq h
  subst this
  simp [List.length_append]
  omega

/-- An inline run: a plain text fragment or a hyperlink, the shared Run model
of both sinks (docx `TextRun` / `ExternalHyperlink`). -/
inductive Run where
  | text (s : Str)
  | link (label url : Str)
deriving DecidableEq

/-- Fueled worker for the exec loop of `parseMarkdownToDocxChildren`
(source lines 21-61): text before each match becomes a text run when
nonempty, every match becomes a link run, and the text after the last match
becomes a trailing text run when nonempty. -/
def parseMDFuel : Nat → Str → List Run
  | 0, _ => []
  | fuel + 1, l =>
    match findMatch l with
    | none => if l = [] then [] else [Run.text l]
    | some (pre, lab, url, rem) =>
      (if pre = [] then [] else [Run.text pre]) ++
        Run.link lab url :: parseMDFuel fuel rem

/-- The Word helper `parseMarkdownToDocxChildren`: resets the global regex
and runs the exec loop over the whole text. -/
def parseMarkdownToDocxChildren (l : Str) : List Run := parseMDFuel (l.length + 1) l

theorem parseMDFuel_congr :
    ∀ fuel l, l.length < fuel → parseMDFuel fuel l = parseMDFuel (l.length + 1) l := by
  intro fuel
  induction fuel using Nat.strong_induction_on with
  | _ fuel ih =>
    intro l hl
    match fuel, hl with
    | fuel + 1, hl =>
      unfold parseMDFuel
      cases h : findMatch l with
      | none => rfl
      | some m =>
        obtain ⟨pre, lab, url, rem⟩ := m
        have hrem := findMatch_rem_lt h
        have h1 : parseMDFuel fuel rem = parseMDFuel (rem.length + 1) rem :=
          ih fuel (Nat.lt_succ_self _) rem (by omega)
        have h2 : parseMDFuel l.length rem = parseMDFuel (rem.length + 1) rem :=
          ih l.length (by omega) rem (by omega)
        simp only
        rw [h1, h2]

theorem parseMarkdownToDocxChildren_none {l : Str} (h : findMatch l = none) :
    parseMarkdownToDocxChildren l = if l = [] then [] else [Run.text l] := by
  unfold parseMarkdownToDocxChildren parseMDFuel
  rw [h]

theorem parseMarkdownToDocxChildren_some {l pre lab url rem : Str}
    (h : findMatch l = some (pre, lab, url, rem)) :
    parseMarkdownToDocxChildren l =
      (if pre = [] then [] else [Run.text pre]) ++
        Run.link lab url :: parseMarkdownToDocxChildren rem := by
  conv_lhs => unfold parseMarkdownToDocxChildren parseMDFuel
  simp only [h]
  have := parseMDFuel_congr l.length rem (findMatch_rem_lt h)
  rw [this]
  rfl

/-- Fueled worker for the global link-to-label replacement
`md.replace(linkRegex, "$1")` (first step of `cleanMarkdown`). -/
def replaceLinksFuel : Nat → Str → Str
  | 0, l => l
  | fuel + 1, l =>
    match findMatch l with
    | none => l
    | some (pre, lab, _, rem) => pre ++ lab ++ replaceLinksFuel fuel rem

/-- Global replacement of every link match by its label. -/
def replaceLinks (l : Str) : Str := replaceLinksFuel (l.length + 1) l

/-- The `cleanMarkdown` helper (source lines 10-18): links become their
labels, then the literal markers are removed in source order. -/
def cleanMarkdown (md : Str) : Str :=
  replaceAll ("<br>".toList) ('\n' :: [])
    (replaceAll ("`".toList) []
      (replaceAll ("#".toList) []
        (replaceAll ("*".toList) []
          (replaceAll ("**".toList) []
            (replaceLinks md)))))

/-- Fueled worker modelling `trimmed.split(linkRegex)` (source line 182):
a JavaScript split on a regex with capture groups interleaves the captured
label and url between the surrounding fragments. -/
def splitByLinkRegexFuel : Nat → Str → List Str
  | 0, l => [l]
  | fuel + 1, l =>
    match findMatch l with
    | none => [l]
    | some (pre, lab, url, rem) => pre :: lab :: url :: splitByLinkRegexFuel fuel rem

/-- JavaScript `trimmed.split(linkRegex)` with the capture groups included. -/
def splitByLinkRegex (l : Str) : List Str := splitByLinkRegexFuel (l.length + 1) l

theorem splitByLinkRegex_none {l : Str} (h : findMatch l = none) :
    splitByLinkRegex l = [l] := by
  unfold splitByLinkRegex splitByLinkRegexFuel
  rw [h]

theorem splitByLinkRegex_one_lt {l : Str} (h : (findMatch l).isSome) :
    1 < (splitByLinkRegex l).length := by
  unfold splitByLinkRegex splitByLinkRegexFuel
  cases hm : findMatch l with
  | none => rw [hm] at h; simp at h
  | some m => obtain ⟨pre, lab, url, rem⟩ := m; simp

/-! The whole-cell link check of `parseCellForPDF` (source lines 70-77) uses
the anchored regex `^\[(.*?)\]\((.*?)\)$`: the `$` anchor forces the url to
run to a final `)`, and the lazy label still backtracks left to right. -/

/-- Anchored url scan: the remainder of the cell must be the url followed by
a final `)`, with no newline inside the url. -/
def scanUrlAnchored (l : Str) : Option Str :=
  if l.getLast? = some ')' ∧ ¬ '\n' ∈ l.dropLast then some l.dropLast else none

/-- Anchored close attempt after the label: requires `(` and then an
anchored url. -/
def tryCloseAnchored : Str → Option Str
  | '(' :: rest2 => scanUrlAnchored rest2
  | _ => none

/-- Anchored label scan after the leading `[`, lazy with backtracking. -/
def scanLabelAnchored : Str → Option (Str × Str)
  | [] => none
  | c :: rest =>
    match (if c = ']' then tryCloseAnchored rest else none) with
    | some u => some ([], u)
    | none =>
      if c = '\n' then none
      else
        match scanLabelAnchored rest with
        | some (lab, u) => some (c :: lab, u)
        | none => none

/-- A PDF table cell as produced by `parseCellForPDF`: either a plain string
or a content/link object for the autoTable hooks. -/
inductive PDFCell where
  | plain (s : Str)
  | obj (content link : Str)
deriving DecidableEq

/-- The PDF helper `parseCellForPDF` (source lines 70-77): a cell whose whole
text is a single link span becomes a content/link object; otherwise the bold
and `<br>` markers are rewritten and the cell stays a string. -/
def parseCellForPDF (text : Str) : PDFCell :=
  match text with
  | '[' :: rest =>
    match scanLabelAnchored rest with
    | some (lab, url) => PDFCell.obj lab url
    | none => PDFCell.plain (replaceAll ("<br>".toList) ('\n' :: []) (replaceAll ("**".toList) [] text))
  | _ => PDFCell.plain (replaceAll ("<br>".toList) ('\n' :: []) (replaceAll ("**".toList) [] text))

/-- The shared table-field splitting used by both sinks (source lines 149,
152-153, 300): split the trimmed line on every pipe, drop the fields that are
empty after trimming, and trim the rest. -/
def tableFields (t : Str) : List Str :=
  ((t.splitOn '|').filter (fun c => !(trim c).isEmpty)).map trim

/-! PDF sink model (`exportToPDF`, source lines 79-232).  The jsPDF drawing
primitives are modelled as an operation trace; the external collaborators
`splitTextToSize`, `getTextWidth`, the autoTable `finalY`, and the page width
are parameters of the machine. -/

/-- One drawing operation of the PDF sink. -/
inductive PDFOp where
  | headingText (s : Str) (size : Nat) (x y : Int) (page : Nat)
  | bodyText (ls : List Str) (x y : Int) (page : Nat)
  | runText (s : Str) (x y : Int) (page : Nat)
  | runLink (s url : Str) (x y : Int) (page : Nat)
  | tableDraw (head : List Str) (body : List (List PDFCell)) (startY : Int) (page : Nat)
deriving DecidableEq

/-- External jsPDF/autoTable collaborators of the PDF sink. -/
structure PDFParams where
  split : Str → Int → List Str
  width : Str → Int
  finalY : List Str → List (List PDFCell) → Int → Int
  pageWidth : Int

/-- The left/right page margin of the PDF sink (source line 82). -/
def margin : Int := 14

/-- The running state of the PDF sink: vertical cursor, number of page
breaks, table accumulator, drawing trace, and the shared mutable `lastIndex`
of the module-level link regex. -/
structure PDFState where
  y : Int
  page : Nat
  inTable : Bool
  tableHeader : List Str
  tableBody : List (List PDFCell)
  ops : List PDFOp
  regexLastIndex : Nat
deriving DecidableEq

/-- Fueled worker for the manual link-drawing loop of the PDF paragraph
branch (source lines 188-218): text fragments and link fragments are drawn
left to right at increasing horizontal offsets. -/
def drawLinkParaFuel (width : Str → Int) (page : Nat) (y : Int) : Nat → Int → Str → List PDFOp
  | 0, _, _ => []
  | fuel + 1, x, l =>
    match findMatch l with
    | none => if l = [] then [] else [PDFOp.runText l x y page]
    | some (pre, lab, url, rem) =>
      let x1 := if pre = [] then x else x + width pre
      (if pre = [] then [] else [PDFOp.runText pre x y page]) ++
        PDFOp.runLink lab url x1 y page ::
          drawLinkParaFuel width page y fuel (x1 + width lab) rem

/-- The link-drawing loop for a paragraph that contains at least one link. -/
def drawLinkPara (width : Str → Int) (page : Nat) (y : Int) (x : Int) (l : Str) : List PDFOp :=
  drawLinkParaFuel width page y (l.length + 1) x l

/-- The `flushTable` closure of `exportToPDF` (source lines 101-137): a
nonempty header emits the accumulated table and advances the cursor past the
rendered height; the body buffer is cleared only in that case. -/
def pdfFlush (p : PDFParams) (s : PDFState) : PDFState :=
  if s.tableHeader.isEmpty = false then
    { s with ops := s.ops ++ [PDFOp.tableDraw s.tableHeader s.tableBody s.y s.page],
             y := p.finalY s.tableHeader s.tableBody s.y + 10,
             tableHeader := [], tableBody := [], inTable := false }
  else
    { s with inTable := false }

/-- The page-break check at the top of the line loop (source lines 141-144):
past the bottom-margin threshold, add a page and reset the cursor to the top
margin. -/
def pdfBreak (s : PDFState) : PDFState :=
  if s.y > 270 then { s with page := s.page + 1, y := 20 } else s

/-- The body of one `lines.forEach` iteration after the page-break check
(source lines 146-226): table accumulation for pipe lines, then
heading/paragraph drawing. -/
def pdfLine (p : PDFParams) (s : PDFState) (line : Str) : PDFState :=
  let trimmed := trim line
  if ("|".toList).isPrefixOf trimmed then
    if s.inTable = false then
      { s with inTable := true,
               tableHeader := (tableFields trimmed).map (replaceAll ("**".toList) []) }
    else if hasSub ("---".toList) trimmed = false then
      { s with tableBody := s.tableBody ++ [(tableFields trimmed).map parseCellForPDF] }
    else s
  else
    let s2 := if s.inTable then pdfFlush p s else s
    if ("# ".toList).isPrefixOf trimmed then
      { s2 with ops := s2.ops ++ [PDFOp.headingText (replaceFirst ("# ".toList) [] trimmed) 16 margin s2.y s2.page],
                y := s2.y + 10 }
    else if ("## ".toList).isPrefixOf trimmed then
      { s2 with ops := s2.ops ++ [PDFOp.headingText (replaceFirst ("## ".toList) [] trimmed) 14 margin s2.y s2.page],
                y := s2.y + 8 }
    else if trimmed.isEmpty = false then
      if 1 < (splitByLinkRegex trimmed).length then
        { s2 with ops := s2.ops ++ drawLinkPara p.width s2.page s2.y margin trimmed,
                  y := s2.y + 6, regexLastIndex := 0 }
      else
        { s2 with ops := s2.ops ++ [PDFOp.bodyText (p.split (cleanMarkdown trimmed) (p.pageWidth - margin * 2)) margin s2.y s2.page],
                  y := s2.y + ((p.split (cleanMarkdown trimmed) (p.pageWidth - margin * 2)).length : Int) * 5 + 2,
                  regexLastIndex := 0 }
    else s2

/-- One iteration of the `lines.forEach` loop of `exportToPDF` (source lines
139-227): page-break check first, then the line body. -/
def pdfStep (p : PDFParams) (s : PDFState) (line : Str) : PDFState :=
  pdfLine p (pdfBreak s) line

/-- The fixed title drawn before the line loop (source line 89). -/
def pdfTitleOp : PDFOp := PDFOp.headingText ("DocuExtract AI Report".toList) 20 margin 20 0

/-- Run the PDF sink over a list of already-split lines, starting from the
title state with the ambient regex `lastIndex` value, and flush a pending
table at end of input. -/
def exportToPDFLines (p : PDFParams) (ambient : Nat) (lines : List Str) : PDFState :=
  let s0 : PDFState :=
    { y := 35, page := 0, inTable := false, tableHeader := [], tableBody := [],
      ops := [pdfTitleOp], regexLastIndex := ambient }
  let s := lines.foldl (pdfStep p) s0
  if s.inTable then pdfFlush p s else s

/-- The full `exportToPDF` entry point: split the Markdown on newlines and
run the line loop. -/
def exportToPDF (p : PDFParams) (ambient : Nat) (content : Str) : PDFState :=
  exportToPDFLines p ambient (content.splitOn '\n')

/-! Word sink model (`exportToWord`, source lines 234-361).  The docx object
tree is modelled structurally: paragraphs carry their run sequence, tables
carry rows of cells, each cell being the run sequence of its single
paragraph. -/

/-- A flow-document node produced by the Word sink. -/
inductive DocxNode where
  | title
  | headingPara (level : Nat) (runs : List Run)
  | para (runs : List Run)
  | emptyPara
  | table (rows : List (List (List Run)))
deriving DecidableEq

/-- The running state of the Word sink: emitted nodes plus the table
accumulator. -/
structure WordState where
  children : List DocxNode
  inTable : Bool
  rows : List (List (List Run))
deriving DecidableEq

/-- The `flushTable` closure of `exportToWord` (source lines 248-258): a
nonempty row buffer emits a table node followed by a blank paragraph; the
buffer and flag are always reset. -/
def wordFlush (s : WordState) : WordState :=
  if s.rows.isEmpty = false then
    { children := s.children ++ [DocxNode.table s.rows, DocxNode.emptyPara],
      inTable := false, rows := [] }
  else
    { s with inTable := false, rows := [] }

/-- Construction of one Word table cell (source lines 301-307): strip the
bold markers, rewrite `<br>` to a newline, and parse the result into runs. -/
def wordCellOf (t : Str) : List Run :=
  parseMarkdownToDocxChildren (replaceAll ("<br>".toList) ('\n' :: []) (replaceAll ("**".toList) [] t))

/-- One iteration of the line loop of `exportToWord` (source lines 260-333):
heading checks first, then table accumulation, then plain paragraphs. -/
def wordStep (s : WordState) (rawLine : Str) : WordState :=
  let line := trim rawLine
  if ("### ".toList).isPrefixOf line then
    let s1 := if s.inTable then wordFlush s else s
    { s1 with children := s1.children ++
        [DocxNode.headingPara 3 (parseMarkdownToDocxChildren (replaceFirst ("### ".toList) [] line))] }
  else if ("## ".toList).isPrefixOf line then
    let s1 := if s.inTable then wordFlush s else s
    { s1 with children := s1.children ++
        [DocxNode.headingPara 2 (parseMarkdownToDocxChildren (replaceFirst ("## ".toList) [] line))] }
  else if ("# ".toList).isPrefixOf line then
    let s1 := if s.inTable then wordFlush s else s
    { s1 with children := s1.children ++
        [DocxNode.headingPara 1 (parseMarkdownToDocxChildren (replaceFirst ("# ".toList) [] line))] }
  else if ("|".toList).isPrefixOf line then
    let s1 := if s.inTable = false then { s with inTable := true, rows := [] } else s
    if hasSub ("---".toList) line then s1
    else { s1 with rows := s1.rows ++ [(tableFields line).map wordCellOf] }
  else
    let s1 := if s.inTable then wordFlush s else s
    if line.isEmpty = false then
      { s1 with children := s1.children ++ [DocxNode.para (parseMarkdownToDocxChildren line)] }
    else s1

/-- Run the Word sink over a list of already-split lines, starting from the
title node, and flush a pending table at end of input. -/
def exportToWordLines (lines : List Str) : List DocxNode :=
  let s0 : WordState := { children := [DocxNode.title], inTable := false, rows := [] }
  let s := lines.foldl wordStep s0
  (if s.inTable then wordFlush s else s).children

/-- The full `exportToWord` entry point: split the Markdown on newlines and
run the line loop. -/
def exportToWord (content : Str) : List DocxNode :=
  exportToWordLines (content.splitOn '\n')

/-! Model of the tail of `analyzeContent` (src/services/geminiService.ts,
lines 244-258): the post-processing of the model response into the
`ExtractedData` record.  The network call itself is external; its response
text (possibly absent or empty, both falsy in JavaScript) is the input. -/

/-- Case-insensitive character-list match for the `gi` regex flag. -/
def isPrefixOfCI : Str → Str → Bool
  | [], _ => true
  | _ :: _, [] => false
  | a :: as, b :: bs => (a.toLower == b.toLower) && isPrefixOfCI as bs

/-- Fueled worker for a global case-insensitive literal replacement, used for
`/```markdown/gi`. -/
def replaceAllCIFuel (pat repl : Str) : Nat → Str → Str
  | _, [] => []
  | 0, l => l
  | fuel + 1, c :: rest =>
    if isPrefixOfCI pat (c :: rest) ∧ pat ≠ [] then
      repl ++ replaceAllCIFuel pat repl fuel ((c :: rest).drop pat.length)
    else
      c :: replaceAllCIFuel pat repl fuel rest

/-- JavaScript global case-insensitive replace of a literal pattern. -/
def replaceAllCI (pat repl l : Str) : Str := replaceAllCIFuel pat repl l.length l

/-- The three content kinds accepted by `analyzeContent`. -/
inductive InputKind where
  | base64
  | url
  | plain
deriving DecidableEq

/-- The `ExtractedData` record returned on success. -/
structure ExtractedData where
  rawText : Str
  markdown : Str
  summary : Str
  detectedType : Str
deriving DecidableEq

/-- The post-processing tail of `analyzeContent`: default the falsy response
text, strip code fences, trim, detect a type heuristically, and build the
record. -/
def analyzeContent (responseText : Option Str) (inputType : InputKind) : ExtractedData :=
  let t0 :=
    match responseText with
    | none => "No content extracted.".toList
    | some t => if t.isEmpty then "No content extracted.".toList else t
  let text := trim (replaceAll ("```".toList) [] (replaceAllCI ("```markdown".toList) [] t0))
  let lowerText := text.map Char.toLower
  let detectedType :=
    if hasSub ("invoice".toList) lowerText || hasSub ("total".toList) lowerText ||
        hasSub ("bill to".toList) lowerText then
      "Financial Document".toList
    else if hasSub ("|".toList) lowerText &&
        (hasSub ("price".toList) lowerText || hasSub ("product".toList) lowerText) then
      "Product List".toList
    else if inputType = InputKind.url then "Web Page".toList
    else "General Document".toList
  { rawText := text, markdown := text,
    summary := text.take 200 ++ "...".toList, detectedType := detectedType }

/-! Shared helper lemmas about branch dispatch in the two line loops. -/

theorem prefix_decomp {p t : Str} (h : p.isPrefixOf t = true) : ∃ u, t = p ++ u := by
  obtain ⟨u, hu⟩ := List.isPrefixOf_iff_prefix.mp h
  exact ⟨u, hu.symm⟩

theorem hash4_not_hash3 (u : Str) :
    ("### ".toList).isPrefixOf ("#### ".toList ++ u) = false := rfl

theorem hash4_not_hash2 (u : Str) :
    ("## ".toList).isPrefixOf ("#### ".toList ++ u) = false := rfl

theorem hash4_not_hash1 (u : Str) :
    ("# ".toList).isPrefixOf ("#### ".toList ++ u) = false := rfl

theorem hash4_not_pipe (u : Str) :
    ("|".toList).isPrefixOf ("#### ".toList ++ u) = false := rfl

theorem hash4_nonempty (u : Str) :
    ("#### ".toList ++ u).isEmpty = false := rfl

theorem hash3_not_pipe (u : Str) :
    ("|".toList).isPrefixOf ("### ".toList ++ u) = false := rfl

theorem hash3_not_hash2 (u : Str) :
    ("## ".toList).isPrefixOf ("### ".toList ++ u) = false := rfl

theorem hash3_not_hash1 (u : Str) :
    ("# ".toList).isPrefixOf ("### ".toList ++ u) = false := rfl

theorem hash3_nonempty (u : Str) :
    ("### ".toList ++ u).isEmpty = false := rfl

theorem pipe_not_hash3 (u : Str) :
    ("### ".toList).isPrefixOf ('|' :: u) = false := rfl

theorem pipe_not_hash2 (u : Str) :
    ("## ".toList).isPrefixOf ('|' :: u) = false := rfl

theorem pipe_not_hash1 (u : Str) :
    ("# ".toList).isPrefixOf ('|' :: u) = false := rfl

/-- Visible content of a run: the text itself, or the label of a link. -/
def runContent : Run → Str
  | Run.text s => s
  | Run.link lab _ => lab

/-- Concatenation of the visible content of a run sequence. -/
def visibleConcat (rs : List Run) : Str := (rs.map runContent).flatten

/-- The urls carried by the link runs of a run sequence, in order. -/
def urlsOf : List Run → List Str
  | [] => []
  | Run.text _ :: rs => urlsOf rs
  | Run.link _ u :: rs => u :: urlsOf rs

/-- C6: for a text span whose link scan finds exactly one match, the run
sequence of the Inline Token Extractor is the pre-text run (when nonempty),
the link run, and the post-text run (when nonempty), in order; concatenating
run contents reproduces the visible text `pre ++ label ++ post`; the url is
recoverable as the unique link-run url; and the span decomposes losslessly
around the link syntax. -/
theorem link_roundtrip (l pre lab url rem : Str)
    (h : findMatch l = some (pre, lab, url, rem))
    (h2 : findMatch rem = none) :
    parseMarkdownToDocxChildren l =
      (if pre = [] then [] else [Run.text pre]) ++
        Run.link lab url :: (if rem = [] then [] else [Run.text rem]) ∧
    visibleConcat (parseMarkdownToDocxChildren l) = pre ++ lab ++ rem ∧
    urlsOf (parseMarkdownToDocxChildren l) = [url] ∧
    l = pre ++ '[' :: (lab ++ ']' :: '(' :: (url ++ ')' :: rem)) := by
  have hp := parseMarkdownToDocxChildren_some h
  have hr := parseMarkdownToDocxChildren_none h2
  rw [hr] at hp
  refine ⟨hp, ?_, ?_, findMatch_eq h⟩
  · rw [hp]
    by_cases hpre : pre = [] <;> by_cases hrem : rem = [] <;>
      simp [hpre, hrem, visibleConcat, runContent]
  · rw [hp]
    by_cases hpre : pre = [] <;> by_cases hrem : rem = [] <;>
      simp [hpre, hrem, urlsOf]

/-- Witness for C6 at the concrete span `see [A](http://x)!`. -/
theorem link_roundtrip_witness :
    parseMarkdownToDocxChildren ("see [A](http://x)!".toList) =
      (if ("see ".toList : Str) = [] then [] else [Run.text ("see ".toList)]) ++
        Run.link ("A".toList) ("http://x".toList) ::
          (if ("!".toList : Str) = [] then [] else [Run.text ("!".toList)]) ∧
    visibleConcat (parseMarkdownToDocxChildren ("see [A](http://x)!".toList)) =
      "see ".toList ++ "A".toList ++ "!".toList ∧
    urlsOf (parseMarkdownToDocxChildren ("see [A](http://x)!".toList)) = ["http://x".toList] ∧
    "see [A](http://x)!".toList =
      "see ".toList ++ '[' :: ("A".toList ++ ']' :: '(' :: ("http://x".toList ++ ')' :: "!".toList)) :=
  link_roundtrip ("see [A](http://x)!".toList) ("see ".toList) ("A".toList)
    ("http://x".toList) ("!".toList) (by decide) (by decide)

/-- C10: the record built by `analyzeContent` mirrors the cleaned response
text into both `rawText` and `markdown`, and its `summary` is the first 200
characters of that text followed by an ellipsis; for a text of at most 200
characters the summary is the whole text plus the ellipsis. -/
theorem analyzeContent_mirror (r : Option Str) (k : InputKind) :
    (analyzeContent r k).markdown = (analyzeContent r k).rawText ∧
    (analyzeContent r k).summary = (analyzeContent r k).rawText.take 200 ++ "...".toList ∧
    ((analyzeContent r k).rawText.length ≤ 200 →
      (analyzeContent r k).summary = (analyzeContent r k).rawText ++ "...".toList) := by
  refine ⟨rfl, rfl, fun h => ?_⟩
  show (analyzeContent r k).rawText.take 200 ++ "...".toList = _
  rw [List.take_of_length_le h]

/-- Witness for C10 at a concrete short response. -/
theorem analyzeContent_mirror_witness :
    (analyzeContent (some ("hi".toList)) InputKind.plain).summary =
      (analyzeContent (some ("hi".toList)) InputKind.plain).rawText ++ "...".toList :=
  (analyzeContent_mirror (some ("hi".toList)) InputKind.plain).2.2 (by decide)

theorem pdfFlush_page (p : PDFParams) (s : PDFState) : (pdfFlush p s).page = s.page := by
  simp only [pdfFlush]
  split <;> rfl

theorem pdfBreak_of_le {s : PDFState} (h : s.y ≤ 270) : pdfBreak s = s := by
  simp only [pdfBreak]
  rw [if_neg (by omega)]

theorem pdfBreak_of_gt {s : PDFState} (h : s.y > 270) :
    pdfBreak s = { s with page := s.page + 1, y := 20 } := by
  simp only [pdfBreak]
  rw [if_pos h]

theorem pdfLine_page (p : PDFParams) (s : PDFState) (l : Str) :
    (pdfLine p s l).page = s.page := by
  simp only [pdfLine]
  by_cases hin : s.inTable <;>
    split_ifs <;> simp [hin, pdfFlush_page]

theorem pdfStep_page_mono (p : PDFParams) (s : PDFState) (l : Str) :
    s.page ≤ (pdfStep p s l).page := by
  unfold pdfStep
  rw [pdfLine_page]
  simp only [pdfBreak]
  split <;> simp

theorem pdfFoldl_page_mono (p : PDFParams) :
    ∀ (ls : List Str) (s : PDFState), s.page ≤ (ls.foldl (pdfStep p) s).page := by
  intro ls
  induction ls with
  | nil => intro s; simp
  | cons l rest ih =>
    intro s
    calc s.page ≤ (pdfStep p s l).page := pdfStep_page_mono p s l
      _ ≤ _ := ih (pdfStep p s l)

theorem isPrefix_of_eq_true {p t : Str} (h : p.isPrefixOf t = true) : p <+: t :=
  List.isPrefixOf_iff_prefix.mp h

theorem not_isPrefix_of_eq_false {p t : Str} (h : p.isPrefixOf t = false) : ¬ p <+: t := by
  intro hc
  rw [List.isPrefixOf_iff_prefix.mpr hc] at h
  exact Bool.noConfusion h

theorem ne_nil_of_isEmpty_false {l : Str} (h : l.isEmpty = false) : ¬ l = [] := by
  cases l <;> simp_all

theorem pdfStep_pipeFirst (p : PDFParams) (s : PDFState) (l : Str)
    (hy : s.y ≤ 270) (hin : s.inTable = false)
    (hp : ("|".toList).isPrefixOf (trim l) = true) :
    pdfStep p s l =
      { s with inTable := true,
               tableHeader := (tableFields (trim l)).map (replaceAll ("**".toList) []) } := by
  unfold pdfStep
  rw [pdfBreak_of_le hy]
  simp only [pdfLine, hp, hin]
  simp

theorem pdfStep_pipeBody (p : PDFParams) (s : PDFState) (l : Str)
    (hy : s.y ≤ 270) (hin : s.inTable = true)
    (hp : ("|".toList).isPrefixOf (trim l) = true)
    (hs : hasSub ("---".toList) (trim l) = false) :
    pdfStep p s l =
      { s with tableBody := s.tableBody ++ [(tableFields (trim l)).map parseCellForPDF] } := by
  unfold pdfStep
  rw [pdfBreak_of_le hy]
  simp only [pdfLine, hp, hin, hs]
  simp

theorem pdfStep_pipeSep (p : PDFParams) (s : PDFState) (l : Str)
    (hy : s.y ≤ 270) (hin : s.inTable = true)
    (hp : ("|".toList).isPrefixOf (trim l) = true)
    (hs : hasSub ("---".toList) (trim l) = true) :
    pdfStep p s l = s := by
  unfold pdfStep
  rw [pdfBreak_of_le hy]
  simp only [pdfLine, hp, hin, hs]
  simp

theorem pdfStep_plain (p : PDFParams) (s : PDFState) (l : Str)
    (hy : s.y ≤ 270) (hin : s.inTable = false)
    (hp : ("|".toList).isPrefixOf (trim l) = false)
    (h1 : ("# ".toList).isPrefixOf (trim l) = false)
    (h2 : ("## ".toList).isPrefixOf (trim l) = false)
    (hne : (trim l).isEmpty = false)
    (hm : findMatch (trim l) = none) :
    pdfStep p s l =
      { s with ops := s.ops ++ [PDFOp.bodyText (p.split (cleanMarkdown (trim l)) (p.pageWidth - margin * 2)) margin s.y s.page],
               y := s.y + ((p.split (cleanMarkdown (trim l)) (p.pageWidth - margin * 2)).length : Int) * 5 + 2,
               regexLastIndex := 0 } := by
  unfold pdfStep
  rw [pdfBreak_of_le hy]
  have hsplit : ¬ 1 < (splitByLinkRegex (trim l)).length := by
    rw [splitByLinkRegex_none hm]
    simp
  have hne2 := ne_nil_of_isEmpty_false hne
  simp only [pdfLine, hp, h1, h2, hin, hne, hsplit]
  simp [hne2, hin]

theorem wordStep_heading3 (s : WordState) (rl : Str)
    (h : ("### ".toList).isPrefixOf (trim rl) = true) :
    wordStep s rl =
      { (if s.inTable then wordFlush s else s) with
        children := (if s.inTable then wordFlush s else s).children ++
          [DocxNode.headingPara 3
            (parseMarkdownToDocxChildren (replaceFirst ("### ".toList) [] (trim rl)))] } := by
  simp only [wordStep, h]
  simp

theorem wordStep_tableRow (s : WordState) (rl : Str)
    (hp : ("|".toList).isPrefixOf (trim rl) = true)
    (hs : hasSub ("---".toList) (trim rl) = false) :
    wordStep s rl =
      { children := s.children, inTable := true,
        rows := (if s.inTable then s.rows else []) ++ [(tableFields (trim rl)).map wordCellOf] } := by
  obtain ⟨u, hu⟩ := prefix_decomp hp
  have h3 : ("### ".toList).isPrefixOf (trim rl) = false := by rw [hu]; exact pipe_not_hash3 u
  have h2 : ("## ".toList).isPrefixOf (trim rl) = false := by rw [hu]; exact pipe_not_hash2 u
  have h1 : ("# ".toList).isPrefixOf (trim rl) = false := by rw [hu]; exact pipe_not_hash1 u
  obtain ⟨ch, it, rws⟩ := s
  simp only [wordStep, h3, h2, h1, hp, hs]
  by_cases hin : it <;> simp [hin]

theorem wordStep_sepRow (s : WordState) (rl : Str)
    (hp : ("|".toList).isPrefixOf (trim rl) = true)
    (hs : hasSub ("---".toList) (trim rl) = true) :
    wordStep s rl = if s.inTable then s else { s with inTable := true, rows := [] } := by
  obtain ⟨u, hu⟩ := prefix_decomp hp
  have h3 : ("### ".toList).isPrefixOf (trim rl) = false := by rw [hu]; exact pipe_not_hash3 u
  have h2 : ("## ".toList).isPrefixOf (trim rl) = false := by rw [hu]; exact pipe_not_hash2 u
  have h1 : ("# ".toList).isPrefixOf (trim rl) = false := by rw [hu]; exact pipe_not_hash1 u
  obtain ⟨ch, it, rws⟩ := s
  simp only [wordStep, h3, h2, h1, hp, hs]
  by_cases hin : it <;> simp [hin]

theorem wordStep_para (s : WordState) (rl : Str)
    (h3 : ("### ".toList).isPrefixOf (trim rl) = false)
    (h2 : ("## ".toList).isPrefixOf (trim rl) = false)
    (h1 : ("# ".toList).isPrefixOf (trim rl) = false)
    (hp : ("|".toList).isPrefixOf (trim rl) = false)
    (hne : (trim rl).isEmpty = false) :
    wordStep s rl =
      { (if s.inTable then wordFlush s else s) with
        children := (if s.inTable then wordFlush s else s).children ++
          [DocxNode.para (parseMarkdownToDocxChildren (trim rl))] } := by
  simp only [wordStep, h3, h2, h1, hp, hne]
  simp [ne_nil_of_isEmpty_false hne]

/-- Concrete external collaborators for evaluating the PDF model on concrete
inputs: text wraps to a single line, widths are character counts, and a
table's rendered height grows with its row count. -/
def testParams : PDFParams :=
  { split := fun s _ => [s], width := fun s => (s.length : Int),
    finalY := fun _ b y => y + 8 * ((b.length : Int) + 1), pageWidth := 210 }

/-- The initial Word sink state (title node only). -/
def wState0 : WordState := { children := [DocxNode.title], inTable := false, rows := [] }

/-- The initial PDF sink state below the title region. -/
def pState0 : PDFState :=
  { y := 35, page := 0, inTable := false, tableHeader := [], tableBody := [],
    ops := [pdfTitleOp], regexLastIndex := 0 }

/-- A PDF sink state inside a table region. -/
def pStateT : PDFState :=
  { y := 35, page := 0, inTable := true, tableHeader := ["H".toList], tableBody := [],
    ops := [pdfTitleOp], regexLastIndex := 0 }

/-- C1 (counterexample): the Word sink renders the line `#### T` as a plain
paragraph (hash marks kept), not as a heading of any level, and the PDF sink
renders the line `### T` as plain wrapped body text, not as a heading; both
contradict the claim that a `### `/`#### ` line is classified as a heading
and never rendered as a plain paragraph. -/
theorem heading_levels_cex :
    exportToWord ("#### T".toList) =
      [DocxNode.title, DocxNode.para [Run.text ("#### T".toList)]] ∧
    (exportToPDF testParams 0 ("### T".toList)).ops =
      [pdfTitleOp, PDFOp.bodyText [" T".toList] margin 35 0] := by
  constructor
  · decide
  · decide

/-- C1 (amended): outside a table, a line starting with `### ` is rendered
by the Word sink as a heading paragraph of semantic level 3; a line starting
with `#### ` is not recognized as a heading by the Word sink and becomes a
plain paragraph with the hash marks kept; and the PDF sink renders both
`### ` and `#### ` lines (without links) as plain wrapped paragraph text,
with hash characters stripped by `cleanMarkdown`, never as a heading. -/
theorem heading_levels_amended (sw : WordState) (p : PDFParams) (sp : PDFState)
    (l1 l2 l3 : Str)
    (ha : ("### ".toList).isPrefixOf (trim l1) = true)
    (hb : ("#### ".toList).isPrefixOf (trim l2) = true)
    (hc : ("### ".toList).isPrefixOf (trim l3) = true ∨
      ("#### ".toList).isPrefixOf (trim l3) = true)
    (hy : sp.y ≤ 270) (hin : sp.inTable = false)
    (hm : findMatch (trim l3) = none) :
    wordStep sw l1 =
      { (if sw.inTable then wordFlush sw else sw) with
        children := (if sw.inTable then wordFlush sw else sw).children ++
          [DocxNode.headingPara 3
            (parseMarkdownToDocxChildren (replaceFirst ("### ".toList) [] (trim l1)))] } ∧
    wordStep sw l2 =
      { (if sw.inTable then wordFlush sw else sw) with
        children := (if sw.inTable then wordFlush sw else sw).children ++
          [DocxNode.para (parseMarkdownToDocxChildren (trim l2))] } ∧
    pdfStep p sp l3 =
      { sp with ops := sp.ops ++ [PDFOp.bodyText (p.split (cleanMarkdown (trim l3)) (p.pageWidth - margin * 2)) margin sp.y sp.page],
                y := sp.y + ((p.split (cleanMarkdown (trim l3)) (p.pageWidth - margin * 2)).length : Int) * 5 + 2,
                regexLastIndex := 0 } := by
  refine ⟨wordStep_heading3 sw l1 ha, ?_, ?_⟩
  · obtain ⟨u, hu⟩ := prefix_decomp hb
    exact wordStep_para sw l2 (by rw [hu]; exact hash4_not_hash3 u)
      (by rw [hu]; exact hash4_not_hash2 u) (by rw [hu]; exact hash4_not_hash1 u)
      (by rw [hu]; exact hash4_not_pipe u) (by rw [hu]; exact hash4_nonempty u)
  · rcases hc with hc | hc
    · obtain ⟨u, hu⟩ := prefix_decomp hc
      exact pdfStep_plain p sp l3 hy hin (by rw [hu]; exact hash3_not_pipe u)
        (by rw [hu]; exact hash3_not_hash1 u) (by rw [hu]; exact hash3_not_hash2 u)
        (by rw [hu]; exact hash3_nonempty u) hm
    · obtain ⟨u, hu⟩ := prefix_decomp hc
      exact pdfStep_plain p sp l3 hy hin (by rw [hu]; exact hash4_not_pipe u)
        (by rw [hu]; exact hash4_not_hash1 u) (by rw [hu]; exact hash4_not_hash2 u)
        (by rw [hu]; exact hash4_nonempty u) hm

/-- Witness for C1 (amended) at the concrete lines `### A` and `#### B`. -/
theorem heading_levels_witness :
    wordStep wState0 ("### A".toList) =
      { (if wState0.inTable then wordFlush wState0 else wState0) with
        children := (if wState0.inTable then wordFlush wState0 else wState0).children ++
          [DocxNode.headingPara 3
            (parseMarkdownToDocxChildren (replaceFirst ("### ".toList) [] (trim ("### A".toList))))] } ∧
    wordStep wState0 ("#### B".toList) =
      { (if wState0.inTable then wordFlush wState0 else wState0) with
        children := (if wState0.inTable then wordFlush wState0 else wState0).children ++
          [DocxNode.para (parseMarkdownToDocxChildren (trim ("#### B".toList)))] } ∧
    pdfStep testParams pState0 ("#### B".toList) =
      { pState0 with ops := pState0.ops ++ [PDFOp.bodyText (testParams.split (cleanMarkdown (trim ("#### B".toList))) (testParams.pageWidth - margin * 2)) margin pState0.y pState0.page],
                     y := pState0.y + ((testParams.split (cleanMarkdown (trim ("#### B".toList))) (testParams.pageWidth - margin * 2)).length : Int) * 5 + 2,
                     regexLastIndex := 0 } :=
  heading_levels_amended wState0 testParams pState0 ("### A".toList) ("#### B".toList)
    ("#### B".toList) (by decide) (by decide) (Or.inr (by decide)) (by decide) (by decide)
    (by decide)

/-- C2 (counterexample): a separator row that is the first pipe-prefixed
line of a table region is captured by the PDF sink as the table header, so
the paginated output contains a table whose header row is `---`, `---`; this
contradicts the claim that such a line never becomes the table's header row. -/
theorem separator_first_cex :
    (exportToPDF testParams 0 ("| --- | --- |\n| A | B |".toList)).ops =
      [pdfTitleOp,
       PDFOp.tableDraw ["---".toList, "---".toList]
         [[PDFCell.plain ("A".toList), PDFCell.plain ("B".toList)]] 35 0] := by
  decide

/-- C2 (amended): a separator row is dropped by the Word sink regardless of
its position in the table region (no node and no row is emitted), and by the
PDF sink whenever the table region is already open; but a separator row that
is the first pipe-prefixed line of a table region is captured by the PDF
sink as the table's header row. -/
theorem separator_row_amended (sw : WordState) (p : PDFParams) (sp sq : PDFState) (l : Str)
    (hp : ("|".toList).isPrefixOf (trim l) = true)
    (hs : hasSub ("---".toList) (trim l) = true)
    (hys : sp.y ≤ 270) (hins : sp.inTable = true)
    (hyq : sq.y ≤ 270) (hinq : sq.inTable = false) :
    wordStep sw l = (if sw.inTable then sw else { sw with inTable := true, rows := [] }) ∧
    pdfStep p sp l = sp ∧
    pdfStep p sq l =
      { sq with inTable := true,
                tableHeader := (tableFields (trim l)).map (replaceAll ("**".toList) []) } :=
  ⟨wordStep_sepRow sw l hp hs, pdfStep_pipeSep p sp l hys hins hp hs,
   pdfStep_pipeFirst p sq l hyq hinq hp⟩

/-- Witness for C2 (amended) at the concrete separator row `| --- | --- |`. -/
theorem separator_row_witness :
    wordStep wState0 ("| --- | --- |".toList) =
      (if wState0.inTable then wState0 else { wState0 with inTable := true, rows := [] }) ∧
    pdfStep testParams pStateT ("| --- | --- |".toList) = pStateT ∧
    pdfStep testParams pState0 ("| --- | --- |".toList) =
      { pState0 with inTable := true,
                     tableHeader := (tableFields (trim ("| --- | --- |".toList))).map (replaceAll ("**".toList) []) } :=
  separator_row_amended wState0 testParams pStateT pState0 ("| --- | --- |".toList)
    (by decide) (by decide) (by decide) (by decide) (by decide) (by decide)

/-- C3 (counterexample): for the row `| A |  | B |` the split-and-filter of
both sinks drops the empty interior field, so the Word sink emits a
two-cell row `A`, `B` and the remaining cells shift left; this contradicts
the claim that only empty leading and trailing fields are dropped and that
an interior empty field is preserved as an empty cell. -/
theorem interior_empty_cell_cex :
    exportToWord ("| A |  | B |".toList) =
      [DocxNode.title,
       DocxNode.table [[[Run.text ("A".toList)], [Run.text ("B".toList)]]],
       DocxNode.emptyPara] ∧
    tableFields ("| A |  | B |".toList) ≠ ["A".toList, [], "B".toList] := by
  constructor
  · decide
  · decide

/-- C3 (amended): in both sinks the cells of a pipe-prefixed table line are
obtained by splitting the trimmed line on `|`, dropping every field that is
empty after trimming — leading, trailing, and interior alike — and trimming
the rest; an empty interior field is therefore removed and the following
cells shift left, as on `| A |  | B |` which yields the two cells `A`, `B`. -/
theorem cell_splitting_amended (sw : WordState) (p : PDFParams) (sp : PDFState) (l : Str)
    (hp : ("|".toList).isPrefixOf (trim l) = true)
    (hs : hasSub ("---".toList) (trim l) = false)
    (hy : sp.y ≤ 270) (hin : sp.inTable = true) :
    wordStep sw l =
      { children := sw.children, inTable := true,
        rows := (if sw.inTable then sw.rows else []) ++ [(tableFields (trim l)).map wordCellOf] } ∧
    pdfStep p sp l =
      { sp with tableBody := sp.tableBody ++ [(tableFields (trim l)).map parseCellForPDF] } ∧
    tableFields ("| A |  | B |".toList) = ["A".toList, "B".toList] :=
  ⟨wordStep_tableRow sw l hp hs, pdfStep_pipeBody p sp l hy hin hp hs, by decide⟩

/-- Witness for C3 (amended) at the concrete row `| A |  | B |`. -/
theorem cell_splitting_witness :
    wordStep wState0 ("| A |  | B |".toList) =
      { children := wState0.children, inTable := true,
        rows := (if wState0.inTable then wState0.rows else []) ++
          [(tableFields (trim ("| A |  | B |".toList))).map wordCellOf] } ∧
    pdfStep testParams pStateT ("| A |  | B |".toList) =
      { pStateT with tableBody := pStateT.tableBody ++
          [(tableFields (trim ("| A |  | B |".toList))).map parseCellForPDF] } ∧
    tableFields ("| A |  | B |".toList) = ["A".toList, "B".toList] :=
  cell_splitting_amended wState0 testParams pStateT ("| A |  | B |".toList)
    (by decide) (by decide) (by decide) (by decide)

/-- C4 (counterexample): for a table whose header cell and body cell both
read `[A](http://x)`, the PDF sink keeps the header cell as the raw string
`[A](http://x)` (no whole-cell-link marker, not clickable) while the
identical body cell becomes a content/link object; this contradicts the
claim that header cells get the whole-cell-link check in both sinks. -/
theorem header_wholecell_link_cex :
    (exportToPDF testParams 0 ("| [A](http://x) | B |\n| [A](http://x) | C |".toList)).ops =
      [pdfTitleOp,
       PDFOp.tableDraw ["[A](http://x)".toList, "B".toList]
         [[PDFCell.obj ("A".toList) ("http://x".toList), PDFCell.plain ("C".toList)]] 35 0] ∧
    parseCellForPDF ("[A](http://x)".toList) = PDFCell.obj ("A".toList) ("http://x".toList) := by
  constructor
  · decide
  · decide

/-- C4 (amended): the Word sink builds every table row — the first (header)
row included — with the same per-field cell construction, so a header cell
that is exactly a link span becomes a single hyperlink run spanning the
cell; the PDF sink applies the whole-cell-link check (`parseCellForPDF`)
only to body rows, while header fields are only trimmed and bold-stripped
into plain strings and never carry a link marker. -/
theorem header_cell_construction_amended (sw : WordState) (p : PDFParams) (sq : PDFState) (l : Str)
    (hp : ("|".toList).isPrefixOf (trim l) = true)
    (hs : hasSub ("---".toList) (trim l) = false)
    (hy : sq.y ≤ 270) (hin : sq.inTable = false) :
    wordStep sw l =
      { children := sw.children, inTable := true,
        rows := (if sw.inTable then sw.rows else []) ++ [(tableFields (trim l)).map wordCellOf] } ∧
    wordCellOf ("[A](http://x)".toList) = [Run.link ("A".toList) ("http://x".toList)] ∧
    pdfStep p sq l =
      { sq with inTable := true,
                tableHeader := (tableFields (trim l)).map (replaceAll ("**".toList) []) } ∧
    parseCellForPDF ("[A](http://x)".toList) = PDFCell.obj ("A".toList) ("http://x".toList) :=
  ⟨wordStep_tableRow sw l hp hs, by decide, pdfStep_pipeFirst p sq l hy hin hp, by decide⟩

/-- Witness for C4 (amended) at the concrete row `| [A](http://x) | B |`. -/
theorem header_cell_construction_witness :
    wordStep wState0 ("| [A](http://x) | B |".toList) =
      { children := wState0.children, inTable := true,
        rows := (if wState0.inTable then wState0.rows else []) ++
          [(tableFields (trim ("| [A](http://x) | B |".toList))).map wordCellOf] } ∧
    wordCellOf ("[A](http://x)".toList) = [Run.link ("A".toList) ("http://x".toList)] ∧
    pdfStep testParams pState0 ("| [A](http://x) | B |".toList) =
      { pState0 with inTable := true,
                     tableHeader := (tableFields (trim ("| [A](http://x) | B |".toList))).map (replaceAll ("**".toList) []) } ∧
    parseCellForPDF ("[A](http://x)".toList) = PDFCell.obj ("A".toList) ("http://x".toList) :=
  header_cell_construction_amended wState0 testParams pState0 ("| [A](http://x) | B |".toList)
    (by decide) (by decide) (by decide) (by decide)

/-- C5 (counterexample): the Word sink renders the paragraph line `**bold**`
as a single text run whose content still carries the `**` markers; this
contradicts the claim that bold markers are stripped from Text-run content
in both sinks. -/
theorem word_bold_stripping_cex :
    exportToWord ("**bold**".toList) =
      [DocxNode.title, DocxNode.para [Run.text ("**bold**".toList)]] ∧
    ("**bold**".toList : Str) ≠ "bold".toList := by
  constructor
  · decide
  · decide

/-- C5 (amended): for a nonempty span with no link match the Inline Token
Extractor yields exactly one Text run containing the input verbatim; the PDF
sink strips bold, asterisk, hash and backtick markers via `cleanMarkdown`
before drawing a plain paragraph, while the Word sink emits the paragraph
runs verbatim, with `**` and backtick markers retained. -/
theorem inline_extractor_stripping_amended (sw : WordState) (p : PDFParams) (sp : PDFState)
    (l rl : Str) (hl : l ≠ []) (hm : findMatch l = none)
    (h3 : ("### ".toList).isPrefixOf (trim rl) = false)
    (h2 : ("## ".toList).isPrefixOf (trim rl) = false)
    (h1 : ("# ".toList).isPrefixOf (trim rl) = false)
    (hp : ("|".toList).isPrefixOf (trim rl) = false)
    (hne : (trim rl).isEmpty = false)
    (hm2 : findMatch (trim rl) = none)
    (hy : sp.y ≤ 270) (hin : sp.inTable = false) :
    parseMarkdownToDocxChildren l = [Run.text l] ∧
    wordStep sw rl =
      { (if sw.inTable then wordFlush sw else sw) with
        children := (if sw.inTable then wordFlush sw else sw).children ++
          [DocxNode.para (parseMarkdownToDocxChildren (trim rl))] } ∧
    pdfStep p sp rl =
      { sp with ops := sp.ops ++ [PDFOp.bodyText (p.split (cleanMarkdown (trim rl)) (p.pageWidth - margin * 2)) margin sp.y sp.page],
                y := sp.y + ((p.split (cleanMarkdown (trim rl)) (p.pageWidth - margin * 2)).length : Int) * 5 + 2,
                regexLastIndex := 0 } ∧
    cleanMarkdown ("**`x`**".toList) = "x".toList := by
  refine ⟨?_, wordStep_para sw rl h3 h2 h1 hp hne,
    pdfStep_plain p sp rl hy hin hp h1 h2 hne hm2, by decide⟩
  rw [parseMarkdownToDocxChildren_none hm, if_neg hl]

/-- Witness for C5 (amended) at the concrete paragraph `**bold**`. -/
theorem inline_extractor_stripping_witness :
    parseMarkdownToDocxChildren ("**bold**".toList) = [Run.text ("**bold**".toList)] ∧
    wordStep wState0 ("**bold**".toList) =
      { (if wState0.inTable then wordFlush wState0 else wState0) with
        children := (if wState0.inTable then wordFlush wState0 else wState0).children ++
          [DocxNode.para (parseMarkdownToDocxChildren (trim ("**bold**".toList)))] } ∧
    pdfStep testParams pState0 ("**bold**".toList) =
      { pState0 with ops := pState0.ops ++ [PDFOp.bodyText (testParams.split (cleanMarkdown (trim ("**bold**".toList))) (testParams.pageWidth - margin * 2)) margin pState0.y pState0.page],
                     y := pState0.y + ((testParams.split (cleanMarkdown (trim ("**bold**".toList))) (testParams.pageWidth - margin * 2)).length : Int) * 5 + 2,
                     regexLastIndex := 0 } ∧
    cleanMarkdown ("**`x`**".toList) = "x".toList :=
  inline_extractor_stripping_amended wState0 testParams pState0
    ("**bold**".toList) ("**bold**".toList) (by decide) (by decide) (by decide) (by decide)
    (by decide) (by decide) (by decide) (by decide) (by decide) (by decide)

/-- Modelled from the spec: the grid renderers that actually draw the table
(jspdf-autotable and the docx layout engine) are external libraries, not
part of this repository; paragraph 4.3 of the specification states that a
too-short row is rendered by each sink as having empty trailing cells.
`padRow n e row` pads a row to `n` cells with the empty cell `e`. -/
def padRow {α : Type} (n : Nat) (e : α) (row : List α) : List α :=
  row ++ List.replicate (n - row.length) e

/-- C7: column counts are never validated.  A table region consisting of a
header line with `n` fields and a body line with `n - 1` fields is accepted
as-is by both sinks with no error path: the Word sink emits the table with
the ragged row holding exactly its own cells in field order, the PDF sink
draws the table with the ragged body row unchanged, and the spec-modelled
renderer padding shows the missing field rendering as one empty trailing
cell while the present cells keep their positions (no shift). -/
theorem ragged_row_accepted (p : PDFParams) (hl bl : Str) (n : Nat)
    (hph : ("|".toList).isPrefixOf (trim hl) = true)
    (hsh : hasSub ("---".toList) (trim hl) = false)
    (hpb : ("|".toList).isPrefixOf (trim bl) = true)
    (hsb : hasSub ("---".toList) (trim bl) = false)
    (hn : (tableFields (trim hl)).length = n)
    (hm : (tableFields (trim bl)).length + 1 = n) :
    exportToWordLines [hl, bl] =
      [DocxNode.title,
       DocxNode.table [(tableFields (trim hl)).map wordCellOf,
                       (tableFields (trim bl)).map wordCellOf],
       DocxNode.emptyPara] ∧
    (exportToPDFLines p 0 [hl, bl]).ops =
      [pdfTitleOp,
       PDFOp.tableDraw ((tableFields (trim hl)).map (replaceAll ("**".toList) []))
         [(tableFields (trim bl)).map parseCellForPDF] 35 0] ∧
    padRow n ([] : List Run) ((tableFields (trim bl)).map wordCellOf) =
      (tableFields (trim bl)).map wordCellOf ++ [[]] ∧
    (padRow n ([] : List Run) ((tableFields (trim bl)).map wordCellOf)).take
        ((tableFields (trim bl)).map wordCellOf).length =
      (tableFields (trim bl)).map wordCellOf := by
  refine ⟨?_, ?_, ?_, ?_⟩
  · have e1 : wordStep { children := [DocxNode.title], inTable := false, rows := [] } hl =
        { children := [DocxNode.title], inTable := true,
          rows := [(tableFields (trim hl)).map wordCellOf] } := by
      have := wordStep_tableRow { children := [DocxNode.title], inTable := false, rows := [] } hl hph hsh
      simpa using this
    have e2 : wordStep { children := [DocxNode.title], inTable := true, rows := [(tableFields (trim hl)).map wordCellOf] } bl =
        { children := [DocxNode.title], inTable := true, rows := [(tableFields (trim hl)).map wordCellOf, (tableFields (trim bl)).map wordCellOf] } := by
      have := wordStep_tableRow { children := [DocxNode.title], inTable := true, rows := [(tableFields (trim hl)).map wordCellOf] } bl hpb hsb
      simpa using this
    unfold exportToWordLines
    simp only [List.foldl_cons, List.foldl_nil]
    rw [e1, e2]
    simp [wordFlush]
  · have f1 : pdfStep p { y := 35, page := 0, inTable := false, tableHeader := [], tableBody := [], ops := [pdfTitleOp], regexLastIndex := 0 } hl = { y := 35, page := 0, inTable := true, tableHeader := (tableFields (trim hl)).map (replaceAll ("**".toList) []), tableBody := [], ops := [pdfTitleOp], regexLastIndex := 0 } := by
      have := pdfStep_pipeFirst p { y := 35, page := 0, inTable := false, tableHeader := [], tableBody := [], ops := [pdfTitleOp], regexLastIndex := 0 } hl (by decide) rfl hph
      simpa using this
    have f2 : pdfStep p { y := 35, page := 0, inTable := true, tableHeader := (tableFields (trim hl)).map (replaceAll ("**".toList) []), tableBody := [], ops := [pdfTitleOp], regexLastIndex := 0 } bl = { y := 35, page := 0, inTable := true, tableHeader := (tableFields (trim hl)).map (replaceAll ("**".toList) []), tableBody := [(tableFields (trim bl)).map parseCellForPDF], ops := [pdfTitleOp], regexLastIndex := 0 } := by
      have := pdfStep_pipeBody p { y := 35, page := 0, inTable := true, tableHeader := (tableFields (trim hl)).map (replaceAll ("**".toList) []), tableBody := [], ops := [pdfTitleOp], regexLastIndex := 0 } bl (by norm_num) rfl hpb hsb
      simpa using this
    have hHne : ¬ tableFields (trim hl) = [] := by
      intro hc
      rw [hc] at hn
      simp at hn
      omega
    unfold exportToPDFLines
    simp only [List.foldl_cons, List.foldl_nil]
    rw [f1, f2]
    simp [pdfFlush, hHne]
  · simp only [padRow, List.length_map]
    have h1 : n - (tableFields (trim bl)).length = 1 := by omega
    rw [h1]
    rfl
  · simp only [padRow]
    exact List.take_left _ _

/-- Witness for C7 at a three-column header with a two-field body row. -/
theorem ragged_row_witness :
    exportToWordLines [("| A | B | C |".toList), ("| x | y |".toList)] =
      [DocxNode.title,
       DocxNode.table [(tableFields (trim ("| A | B | C |".toList))).map wordCellOf,
                       (tableFields (trim ("| x | y |".toList))).map wordCellOf],
       DocxNode.emptyPara] ∧
    (exportToPDFLines testParams 0 [("| A | B | C |".toList), ("| x | y |".toList)]).ops =
      [pdfTitleOp,
       PDFOp.tableDraw ((tableFields (trim ("| A | B | C |".toList))).map (replaceAll ("**".toList) []))
         [(tableFields (trim ("| x | y |".toList))).map parseCellForPDF] 35 0] ∧
    padRow 3 ([] : List Run) ((tableFields (trim ("| x | y |".toList))).map wordCellOf) =
      (tableFields (trim ("| x | y |".toList))).map wordCellOf ++ [[]] ∧
    (padRow 3 ([] : List Run) ((tableFields (trim ("| x | y |".toList))).map wordCellOf)).take
        ((tableFields (trim ("| x | y |".toList))).map wordCellOf).length =
      (tableFields (trim ("| x | y |".toList))).map wordCellOf :=
  ragged_row_accepted testParams ("| A | B | C |".toList) ("| x | y |".toList) 3
    (by decide) (by decide) (by decide) (by decide) (by decide) (by decide)

theorem pdfStep_break_eq (p : PDFParams) (s : PDFState) (l : Str) (h : s.y > 270) :
    pdfStep p s l = pdfStep p { s with page := s.page + 1, y := 20 } l := by
  unfold pdfStep
  rw [pdfBreak_of_gt h]
  have h2 : pdfBreak { s with page := s.page + 1, y := 20 } =
      { s with page := s.page + 1, y := 20 } := pdfBreak_of_le (by norm_num)
  rw [h2]

theorem pdfStep_break_page (p : PDFParams) (s : PDFState) (l : Str) (h : s.y > 270) :
    1 ≤ (pdfStep p s l).page := by
  unfold pdfStep
  rw [pdfBreak_of_gt h, pdfLine_page]
  simp

theorem pdfLine_nonpipe (p : PDFParams) (s : PDFState) (l : Str)
    (hsplit : ∀ t w, 1 ≤ (p.split t w).length)
    (hne : (trim l).isEmpty = false)
    (hp : ("|".toList).isPrefixOf (trim l) = false)
    (hin : s.inTable = false) :
    (pdfLine p s l).inTable = false ∧ (pdfLine p s l).page = s.page ∧
      s.y + 6 ≤ (pdfLine p s l).y := by
  have hne2 := ne_nil_of_isEmpty_false hne
  have hlen : (1 : Int) ≤ ((p.split (cleanMarkdown (trim l)) (p.pageWidth - margin * 2)).length : Int) := by
    exact_mod_cast hsplit (cleanMarkdown (trim l)) (p.pageWidth - margin * 2)
  simp only [pdfLine, hp, hin, hne]
  split_ifs <;> simp_all
  all_goals
    have hlen2 : 1 ≤ (p.split (cleanMarkdown (trim l)) (p.pageWidth - margin * 2)).length :=
      hsplit (cleanMarkdown (trim l)) (p.pageWidth - margin * 2)
  all_goals omega

theorem pdfStep_advance (p : PDFParams) (s : PDFState) (l : Str)
    (hsplit : ∀ t w, 1 ≤ (p.split t w).length)
    (hne : (trim l).isEmpty = false)
    (hp : ("|".toList).isPrefixOf (trim l) = false)
    (hin : s.inTable = false) :
    (pdfStep p s l).inTable = false ∧
    (s.page < (pdfStep p s l).page ∨
      ((pdfStep p s l).page = s.page ∧ s.y + 6 ≤ (pdfStep p s l).y)) := by
  unfold pdfStep
  by_cases hbr : s.y > 270
  · rw [pdfBreak_of_gt hbr]
    obtain ⟨hA, hB, hC⟩ := pdfLine_nonpipe p { s with page := s.page + 1, y := 20 } l
      hsplit hne hp (by simp [hin])
    refine ⟨hA, Or.inl ?_⟩
    rw [hB]
    simp
  · rw [pdfBreak_of_le (by omega)]
    obtain ⟨hA, hB, hC⟩ := pdfLine_nonpipe p s l hsplit hne hp hin
    exact ⟨hA, Or.inr ⟨hB, hC⟩⟩

theorem pdfRun_advance (p : PDFParams)
    (hsplit : ∀ t w, 1 ≤ (p.split t w).length) :
    ∀ (ls : List Str) (s : PDFState),
      (∀ l ∈ ls, (trim l).isEmpty = false ∧ ("|".toList).isPrefixOf (trim l) = false) →
      s.inTable = false →
      (ls.foldl (pdfStep p) s).inTable = false ∧
      (s.page < (ls.foldl (pdfStep p) s).page ∨
        ((ls.foldl (pdfStep p) s).page = s.page ∧
          s.y + 6 * ls.length ≤ (ls.foldl (pdfStep p) s).y)) := by
  intro ls
  induction ls with
  | nil =>
    intro s _ hin
    refine ⟨hin, Or.inr ⟨rfl, ?_⟩⟩
    simp
  | cons l rest ih =>
    intro s hg hin
    simp only [List.foldl_cons]
    obtain ⟨hA, hB⟩ := pdfStep_advance p s l hsplit (hg l (by simp)).1 (hg l (by simp)).2 hin
    obtain ⟨hA2, hB2⟩ := ih (pdfStep p s l) (fun x hx => hg x (by simp [hx])) hA
    refine ⟨hA2, ?_⟩
    have hmono := pdfFoldl_page_mono p rest (pdfStep p s l)
    rcases hB with hlt | ⟨hpe, hy⟩
    · left
      omega
    · rcases hB2 with hlt2 | ⟨hpe2, hy2⟩
      · left
        omega
      · right
        refine ⟨by omega, ?_⟩
        simp only [List.length_cons]
        push_cast
        omega

/-- C8: before drawing any block the PDF sink checks the cursor: a state
past the bottom-margin threshold starts a new page and resets the cursor to
the top margin before the line is processed, so processing from the broken
state and from the explicitly advanced state coincide; consequently, for any
Markdown whose lines are all nonempty non-table paragraphs and number at
least 41 (enough to exceed one page's printable height at the minimum line
advance), the paginated output has more than one page. -/
theorem page_break_policy (p : PDFParams) (s : PDFState) (l : Str) (a : Nat) (c : Str)
    (hbr : s.y > 270)
    (hsplit : ∀ t w, 1 ≤ (p.split t w).length)
    (hg : ∀ x ∈ c.splitOn '\n',
      (trim x).isEmpty = false ∧ ("|".toList).isPrefixOf (trim x) = false)
    (hn : 41 ≤ (c.splitOn '\n').length) :
    pdfStep p s l = pdfStep p { s with page := s.page + 1, y := 20 } l ∧
    1 ≤ (exportToPDF p a c).page := by
  refine ⟨pdfStep_break_eq p s l hbr, ?_⟩
  unfold exportToPDF exportToPDFLines
  have hflushpage : ∀ t : PDFState, (if t.inTable then pdfFlush p t else t).page = t.page := by
    intro t
    split
    · exact pdfFlush_page p t
    · rfl
  rw [hflushpage]
  have hdecomp : c.splitOn '\n' = (c.splitOn '\n').take 40 ++ (c.splitOn '\n').drop 40 :=
    (List.take_append_drop 40 (c.splitOn '\n')).symm
  rw [hdecomp, List.foldl_append]
  have hg40 : ∀ x ∈ (c.splitOn '\n').take 40,
      (trim x).isEmpty = false ∧ ("|".toList).isPrefixOf (trim x) = false :=
    fun x hx => hg x (List.take_subset 40 _ hx)
  obtain ⟨hA, hB⟩ := pdfRun_advance p hsplit ((c.splitOn '\n').take 40)
    { y := 35, page := 0, inTable := false, tableHeader := [], tableBody := [], ops := [pdfTitleOp], regexLastIndex := a } hg40 rfl
  set s1 := ((c.splitOn '\n').take 40).foldl (pdfStep p)
    { y := 35, page := 0, inTable := false, tableHeader := [], tableBody := [], ops := [pdfTitleOp], regexLastIndex := a }
  have hmono := pdfFoldl_page_mono p ((c.splitOn '\n').drop 40) s1
  rcases hB with hlt | ⟨hpe, hy⟩
  · simp only at hlt
    omega
  · have hlen40 : ((c.splitOn '\n').take 40).length = 40 := by
      rw [List.length_take]
      omega
    rw [hlen40] at hy
    simp only at hpe hy
    obtain ⟨l41, rest, hdrop⟩ : ∃ x xs, (c.splitOn '\n').drop 40 = x :: xs := by
      cases hd : (c.splitOn '\n').drop 40 with
      | nil =>
        have hld := List.length_drop 40 (c.splitOn '\n')
        rw [hd] at hld
        simp at hld
        omega
      | cons x xs => exact ⟨x, xs, rfl⟩
    rw [hdrop]
    simp only [List.foldl_cons]
    have h41 : 1 ≤ (pdfStep p s1 l41).page := pdfStep_break_page p s1 l41 (by omega)
    have hmono2 := pdfFoldl_page_mono p rest (pdfStep p s1 l41)
    omega

/-- A Markdown body of 41 one-word paragraph lines. -/
def manyLines : Str := List.intercalate ('\n' :: []) (List.replicate 41 ("hello".toList))

/-- A PDF sink state whose cursor is past the page-break threshold. -/
def pStateBreak : PDFState :=
  { y := 271, page := 0, inTable := false, tableHeader := [], tableBody := [],
    ops := [], regexLastIndex := 0 }

/-- Witness for C8 at a cursor of 271 and a 41-paragraph document. -/
theorem page_break_policy_witness :
    pdfStep testParams pStateBreak ("x".toList) =
      pdfStep testParams { pStateBreak with page := pStateBreak.page + 1, y := 20 } ("x".toList) ∧
    1 ≤ (exportToPDF testParams 0 manyLines).page :=
  page_break_policy testParams pStateBreak ("x".toList) 0 manyLines (by decide)
    (fun t w => by simp [testParams]) (by decide) (by decide)

/-- Projection of the PDF sink state onto its observable paginated output:
cursor, page count, table accumulator, and the drawing trace — everything
except the ambient `lastIndex` of the module-level regex. -/
def pdfOut (s : PDFState) : Int × Nat × Bool × List Str × List (List PDFCell) × List PDFOp :=
  (s.y, s.page, s.inTable, s.tableHeader, s.tableBody, s.ops)

theorem pdfBreak_out {s1 s2 : PDFState} (h : pdfOut s1 = pdfOut s2) :
    pdfOut (pdfBreak s1) = pdfOut (pdfBreak s2) := by
  obtain ⟨y1, g1, b1, th1, tb1, o1, r1⟩ := s1
  obtain ⟨y2, g2, b2, th2, tb2, o2, r2⟩ := s2
  simp only [pdfOut, Prod.mk.injEq] at h
  obtain ⟨e1, e2, e3, e4, e5, e6⟩ := h
  subst e1 e2 e3 e4 e5 e6
  simp only [pdfBreak]
  split_ifs <;> rfl

theorem pdfFlush_out (p : PDFParams) {s1 s2 : PDFState} (h : pdfOut s1 = pdfOut s2) :
    pdfOut (pdfFlush p s1) = pdfOut (pdfFlush p s2) := by
  obtain ⟨y1, g1, b1, th1, tb1, o1, r1⟩ := s1
  obtain ⟨y2, g2, b2, th2, tb2, o2, r2⟩ := s2
  simp only [pdfOut, Prod.mk.injEq] at h
  obtain ⟨e1, e2, e3, e4, e5, e6⟩ := h
  subst e1 e2 e3 e4 e5 e6
  simp only [pdfFlush]
  split_ifs <;> rfl

theorem pdfLine_out (p : PDFParams) (l : Str) {s1 s2 : PDFState} (h : pdfOut s1 = pdfOut s2) :
    pdfOut (pdfLine p s1 l) = pdfOut (pdfLine p s2 l) := by
  obtain ⟨y1, g1, b1, th1, tb1, o1, r1⟩ := s1
  obtain ⟨y2, g2, b2, th2, tb2, o2, r2⟩ := s2
  simp only [pdfOut, Prod.mk.injEq] at h
  obtain ⟨e1, e2, e3, e4, e5, e6⟩ := h
  subst e1 e2 e3 e4 e5 e6
  simp only [pdfLine, pdfFlush]
  split_ifs <;> rfl

theorem pdfStep_out (p : PDFParams) (l : Str) {s1 s2 : PDFState} (h : pdfOut s1 = pdfOut s2) :
    pdfOut (pdfStep p s1 l) = pdfOut (pdfStep p s2 l) := by
  unfold pdfStep
  exact pdfLine_out p l (pdfBreak_out h)

theorem pdfFoldl_out (p : PDFParams) :
    ∀ (ls : List Str) {s1 s2 : PDFState}, pdfOut s1 = pdfOut s2 →
      pdfOut (ls.foldl (pdfStep p) s1) = pdfOut (ls.foldl (pdfStep p) s2) := by
  intro ls
  induction ls with
  | nil => intro s1 s2 h; exact h
  | cons l rest ih =>
    intro s1 s2 h
    simp only [List.foldl_cons]
    exact ih (pdfStep_out p l h)

/-- C9: the paginated output of the PDF sink — every cursor position,
page-break decision, and drawing operation — is a pure function of the
Markdown text and the fixed styling parameters: it does not depend on the
ambient value of the shared module-level regex `lastIndex` state, which is
the only mutable state shared between two successive export calls, so
rendering the same string twice yields identical paginated layout.  (The
Word sink model carries no ambient state at all.) -/
theorem exportToPDF_deterministic (p : PDFParams) (a1 a2 : Nat) (c : Str) :
    pdfOut (exportToPDF p a1 c) = pdfOut (exportToPDF p a2 c) := by
  unfold exportToPDF exportToPDFLines
  have hf := @pdfFoldl_out p (c.splitOn '\n')
    { y := 35, page := 0, inTable := false, tableHeader := [], tableBody := [], ops := [pdfTitleOp], regexLastIndex := a1 }
    { y := 35, page := 0, inTable := false, tableHeader := [], tableBody := [], ops := [pdfTitleOp], regexLastIndex := a2 }
    rfl
  set t1 := (c.splitOn '\n').foldl (pdfStep p)
    { y := 35, page := 0, inTable := false, tableHeader := [], tableBody := [], ops := [pdfTitleOp], regexLastIndex := a1 }
  set t2 := (c.splitOn '\n').foldl (pdfStep p)
    { y := 35, page := 0, inTable := false, tableHeader := [], tableBody := [], ops := [pdfTitleOp], regexLastIndex := a2 }
  have hit : t1.inTable = t2.inTable := by
    have := congrArg (fun q => q.2.2.1) hf
    simpa [pdfOut] using this
  by_cases hb : t1.inTable
  · rw [if_pos hb, if_pos (hit.symm.trans hb)]
    exact pdfFlush_out p hf
  · rw [if_neg hb, if_neg (by rw [← hit]; exact hb)]
    exact hf
